import Mathlib

/-!
Verification of the survey application (survey authoring, survey taking,
result aggregation, response comparison) against its natural-language
specification.  The definitions below are a shallow embedding of the
TypeScript components (`CreateSurvey.tsx`, `TakeSurvey.tsx`,
`SurveyResults.tsx`, `UserResponseComparison.tsx`) and of the uniqueness
constraint declared in the database migration.  JSON values that can be a
string or a list of strings are modelled by `AnswerValue`; records keyed by
strings are modelled by association lists or by functions `String → Nat`.
-/

namespace Questionnaire

/-- The three question types allowed by the schema check constraint
`question_type IN ('single_choice', 'multiple_choice', 'text')`. -/
inductive QuestionType
  | single_choice
  | multiple_choice
  | text
deriving DecidableEq, Repr

/-- A row of the `questions` table (see `types.ts` interface `Question`). -/
structure Question where
  id : String
  survey_id : String
  question_text : String
  question_type : QuestionType
  options : List String
  is_required : Bool
  order_index : Nat
  created_at : String
deriving DecidableEq, Repr

/-- An `answer_value` as stored in the jsonb column: a single string or a
list of strings (`types.ts`: `answer_value: string | string[]`). -/
inductive AnswerValue
  | str (s : String)
  | list (l : List String)
deriving DecidableEq, Repr

/-- A row of the `responses` table. -/
structure RespRow where
  id : String
  survey_id : String
  user_id : String
deriving DecidableEq, Repr

/-- A row of the `answers` table. -/
structure AnsRow where
  response_id : String
  question_id : String
  answer_value : AnswerValue
deriving DecidableEq, Repr

/-! ## Result aggregation (`SurveyResults.tsx`, `loadResults`)

The tallying loop builds a record `stats.answers : Record<string, number>`:
`stats.answers[v] = (stats.answers[v] || 0) + 1`.  The record is modelled as
a total function `String → Nat` whose default value is `0`, which folds the
`|| 0` fallback of both the update and the later render-time lookup into
the model. -/

/-- One update `stats.answers[v] = (stats.answers[v] || 0) + 1`. -/
def bump (counts : String → Nat) (v : String) : String → Nat :=
  fun k => if k = v then counts v + 1 else counts k

/-- Processing of one answer value in the `questionAnswers.forEach` loop:
a list-valued answer bumps each listed element in order, any other value
bumps the single key it denotes. -/
def tallyAnswer (counts : String → Nat) : AnswerValue → (String → Nat)
  | AnswerValue.list vs => vs.foldl bump counts
  | AnswerValue.str v => bump counts v

/-- The whole tallying loop over a question's answers, starting from the
empty record `{}`. -/
def tallyAnswers (questionAnswers : List AnswerValue) : String → Nat :=
  questionAnswers.foldl tallyAnswer (fun _ => 0)

/-- The per-option counts actually reported in the render:
`stat.question.options.map(option => stat.answers[option] || 0)`
(`SurveyResults.tsx`, lines 181-201), keyed by option. -/
def optionCounts (q : Question) (questionAnswers : List AnswerValue) :
    List (String × Nat) :=
  q.options.map (fun option => (option, tallyAnswers questionAnswers option))

/-! ### The percentage computation, in IEEE-754 binary64 arithmetic

`getPercentage` (`SurveyResults.tsx`, lines 101-104) is
`if (total === 0) return 0; return Math.round((count / total) * 100);`.
The two arithmetic operations run on binary64 doubles: `count / total` is
rounded to the nearest double (ties to even), so is the product with
`100`, and `Math.round` then rounds the resulting double half-up exactly.
A positive double in the normal range is `n * 2 ^ (e - 52)` where
`e = ⌊log₂ value⌋` and `n` is the scaled significand in `[2^52, 2^53)`,
so each rounding is "scale the exact rational by `2 ^ (52 - e)` and round
to the nearest integer, ties to even".  `count`, `total` and `100` are
exact doubles (all integers below `2^53`), both operations are correctly
rounded, and for `1 ≤ count` and `1 ≤ total < 2^53` the quotient can
neither overflow nor become subnormal, so the model below is the exact
binary64 computation.  Everything is kept in `ℕ`/`ℤ` arithmetic so that
concrete runs reduce in the kernel. -/

/-- `⌊log₂ n⌋` by structural recursion on a fuel bound. -/
def natLog2Aux : ℕ → ℕ → ℕ
  | 0, _ => 0
  | fuel + 1, n => if n ≤ 1 then 0 else 1 + natLog2Aux fuel (n / 2)

/-- `⌊log₂ n⌋` (0 for `n = 0`). -/
def natLog2 (n : ℕ) : ℕ := natLog2Aux n n

/-- Round `a / b` to the nearest integer, ties to even. -/
def rneDiv (a b : ℕ) : ℕ :=
  if 2 * (a % b) < b then a / b
  else if b < 2 * (a % b) then a / b + 1
  else if (a / b) % 2 = 0 then a / b else a / b + 1

/-- Round `(a / b) * 2 ^ k` to the nearest integer, ties to even. -/
def rneScaled (a b : ℕ) (k : ℤ) : ℕ :=
  if 0 ≤ k then rneDiv (a * 2 ^ k.toNat) b
  else rneDiv a (b * 2 ^ (-k).toNat)

/-- `⌊log₂ (a / b)⌋` for positive naturals: `natLog2 a - natLog2 b`,
corrected down by one when `a / b` falls below that power of two. -/
def ratLog2 (a b : ℕ) : ℤ :=
  if a * 2 ^ natLog2 b < 2 ^ natLog2 a * b
  then (natLog2 a : ℤ) - natLog2 b - 1
  else (natLog2 a : ℤ) - natLog2 b

/-- `⌊n * 2 ^ (-k) + 1 / 2⌋`: the exact `Math.round` of the non-negative
double with significand `n` and scale `2 ^ (-k)`. -/
def floorHalfUpDyadic (n : ℕ) (k : ℤ) : ℕ :=
  if 0 ≤ k then (2 * n + 2 ^ k.toNat) / 2 ^ (k.toNat + 1)
  else n * 2 ^ (-k).toNat

/-- The value `100 * n1 * 2 ^ (e1 - 52)` (the exact product of the rounded
quotient with `100`) as a ratio of naturals, ready for the second
rounding. -/
def dyadicMul100 (n1 : ℕ) (e1 : ℤ) : ℕ × ℕ :=
  if 0 ≤ 52 - e1 then (100 * n1, 2 ^ (52 - e1).toNat)
  else (100 * n1 * 2 ^ (e1 - 52).toNat, 1)

/-- The significand of the binary64 double nearest to `a / b`; its
exponent is `ratLog2 a b`. -/
def roundToB64Sig (a b : ℕ) : ℕ := rneScaled a b (52 - ratLog2 a b)

/-- `Math.round` applied to the binary64 double nearest to `a / b`. -/
def pctMathRound (a b : ℕ) : ℕ :=
  floorHalfUpDyadic (roundToB64Sig a b) (52 - ratLog2 a b)

/-- `getPercentage` (`SurveyResults.tsx`, lines 101-104) in exact binary64
semantics: 0 when `total = 0`, otherwise `Math.round` of the double
`roundB64(roundB64(count / total) * 100)`. -/
def getPercentage (count total : Nat) : Nat :=
  if total = 0 then 0
  else
    pctMathRound
      (dyadicMul100 (roundToB64Sig count total) (ratLog2 count total)).1
      (dyadicMul100 (roundToB64Sig count total) (ratLog2 count total)).2

/-- How many times an answer value mentions a given key: a list contributes
one per occurrence, a string contributes one iff it equals the key. -/
def AnswerValue.occurrences : AnswerValue → String → Nat
  | AnswerValue.list vs, k => vs.count k
  | AnswerValue.str v, k => if k = v then 1 else 0

/-- Whether an answer selects a given option at all (a string answer equal
to it, or a list answer containing it). -/
def AnswerValue.selects : AnswerValue → String → Bool
  | AnswerValue.str v, opt => opt = v
  | AnswerValue.list vs, opt => vs.contains opt

theorem bump_apply (m : String → Nat) (v k : String) :
    bump m v k = m k + (if k = v then 1 else 0) := by
  unfold bump
  by_cases h : k = v
  · subst h; simp
  · simp [h]

theorem foldl_bump_apply (l : List String) (m : String → Nat) (k : String) :
    (l.foldl bump m) k = m k + l.count k := by
  induction l generalizing m with
  | nil => simp
  | cons v rest ih =>
    rw [List.foldl_cons, ih, bump_apply, List.count_cons]
    by_cases h : k = v
    · subst h; simp
      omega
    · have h2 : ¬(v = k) := fun hh => h hh.symm
      simp [h, h2]

theorem tallyAnswer_apply (m : String → Nat) (a : AnswerValue) (k : String) :
    tallyAnswer m a k = m k + a.occurrences k := by
  cases a with
  | str v => simp [tallyAnswer, AnswerValue.occurrences, bump_apply]
  | list vs => simp [tallyAnswer, AnswerValue.occurrences, foldl_bump_apply]

theorem tallyAnswers_apply (questionAnswers : List AnswerValue) (k : String) :
    tallyAnswers questionAnswers k =
      (questionAnswers.map (fun a => a.occurrences k)).sum := by
  unfold tallyAnswers
  suffices h : ∀ (l : List AnswerValue) (m : String → Nat),
      (l.foldl tallyAnswer m) k = m k + (l.map (fun a => a.occurrences k)).sum by
    simpa using h questionAnswers (fun _ => 0)
  intro l
  induction l with
  | nil => intro m; simp
  | cons a rest ih =>
    intro m
    rw [List.foldl_cons, ih, tallyAnswer_apply]
    simp
    omega

theorem tallyAnswers_append_one (questionAnswers : List AnswerValue)
    (a : AnswerValue) (k : String) :
    tallyAnswers (questionAnswers ++ [a]) k =
      tallyAnswers questionAnswers k + a.occurrences k := by
  simp [tallyAnswers_apply]

theorem selects_false_occurrences (a : AnswerValue) (opt : String)
    (h : a.selects opt = false) : a.occurrences opt = 0 := by
  cases a with
  | str v =>
    simp [AnswerValue.selects] at h
    simp [AnswerValue.occurrences, h]
  | list vs =>
    simp [AnswerValue.selects] at h
    simp [AnswerValue.occurrences]
    exact List.count_eq_zero.mpr h

theorem sum_map_eq_length {α : Type} (l : List α) (g : α → Nat)
    (h : ∀ a ∈ l, g a = 1) : (l.map g).sum = l.length := by
  induction l with
  | nil => simp
  | cons a rest ih =>
    simp only [List.map_cons, List.sum_cons, List.length_cons]
    rw [h a (List.mem_cons_self a rest), ih (fun b hb => h b (List.mem_cons_of_mem a hb))]
    omega

theorem sum_map_indicator (O : List String) (s : String) :
    (O.map (fun o => if o = s then 1 else 0)).sum = O.count s := by
  induction O with
  | nil => simp
  | cons o rest ih =>
    rw [List.map_cons, List.sum_cons, ih, List.count_cons]
    by_cases h : o = s
    · simp [h]
      omega
    · simp [h]

theorem sum_map_add_split {α : Type} (l : List α) (f g : α → Nat) :
    (l.map (fun x => f x + g x)).sum = (l.map f).sum + (l.map g).sum := by
  induction l with
  | nil => simp
  | cons a rest ih =>
    simp only [List.map_cons, List.sum_cons, ih]
    omega

theorem sum_map_swap {α : Type} (O : List String) (A : List α)
    (f : String → α → Nat) :
    (O.map (fun o => (A.map (fun a => f o a)).sum)).sum =
      (A.map (fun a => (O.map (fun o => f o a)).sum)).sum := by
  induction O with
  | nil =>
    simp only [List.map_nil, List.sum_nil]
    symm
    apply List.sum_eq_zero
    intro x hx
    simp at hx
    obtain ⟨a, _, ha⟩ := hx
    omega
  | cons o rest ih =>
    simp only [List.map_cons, List.sum_cons, ih]
    rw [sum_map_add_split]

/-! ## Survey taking (`TakeSurvey.tsx`) and the responses uniqueness
constraint (`supabase/migrations/..._create_survey_system.sql`)

The `answers` react state is `Record<string, string | string[]>`; it is
modelled as an association list in key-insertion order, looked up by first
match.  The data store is modelled by `Db`: the `responses` rows relevant
to submission and the `answers` rows. -/

/-- Lookup `answers[questionId]` in the answers record. -/
def lookupAnswer : List (String × AnswerValue) → String → Option AnswerValue
  | [], _ => none
  | (k, v) :: rest, key => if k = key then some v else lookupAnswer rest key

/-- JavaScript truthiness test `!answers[question.id]` used by the
validation loop of `handleSubmit`: a missing entry and the empty string are
falsy, while every array (even the empty one) is truthy. -/
def jsFalsyAnswer : Option AnswerValue → Bool
  | none => true
  | some (AnswerValue.str s) => s = ""
  | some (AnswerValue.list _) => false

/-- The condition of the validation loop:
`question.is_required && !answers[question.id]`. -/
def unmetRequired (answers : List (String × AnswerValue)) (q : Question) : Bool :=
  q.is_required && jsFalsyAnswer (lookupAnswer answers q.id)

/-- The state of the two tables touched by a submission. -/
structure Db where
  responses : List RespRow
  answerRows : List AnsRow
deriving DecidableEq, Repr

/-- Whether a `responses` row for this `(survey_id, user_id)` pair exists. -/
def hasResponse (db : Db) (surveyId userId : String) : Bool :=
  db.responses.any (fun r => r.survey_id == surveyId && r.user_id == userId)

/-- Insertion into the `responses` table.  The migration declares
`UNIQUE(survey_id, user_id)`, so inserting a second row for the same pair
fails with a constraint violation and leaves the table unchanged. -/
def insertResponse (db : Db) (newId surveyId userId : String) :
    Except String Db :=
  if hasResponse db surveyId userId then
    Except.error "duplicate key value violates unique constraint"
  else
    Except.ok { db with responses := db.responses ++ [⟨newId, surveyId, userId⟩] }

/-- Outcome of a submission attempt as observed by the caller. -/
inductive SubmitOutcome
  | blocked (msg : String)
  | dbError (msg : String)
  | success
deriving DecidableEq, Repr

/-- `handleSubmit` of `TakeSurvey.tsx` (lines 294-337): the validation loop
returns at the first required question whose recorded answer is falsy,
before any insert; otherwise one `responses` row is inserted (failing on
the uniqueness constraint aborts before any `answers` insert), then one
`answers` row per entry of the answers record. -/
def handleSubmit (questions : List Question)
    (answers : List (String × AnswerValue)) (db : Db)
    (surveyId userId newId : String) : Db × SubmitOutcome :=
  match questions.find? (unmetRequired answers) with
  | some q => (db, SubmitOutcome.blocked ("请回答问题：" ++ q.question_text))
  | none =>
    match insertResponse db newId surveyId userId with
    | Except.error e => (db, SubmitOutcome.dbError e)
    | Except.ok db2 =>
      let rows := answers.map (fun kv => AnsRow.mk newId kv.1 kv.2)
      ({ db2 with answerRows := db2.answerRows ++ rows }, SubmitOutcome.success)

/-- The existing-response probe of `loadSurvey` in `TakeSurvey.tsx`
(lines 264-273): `maybeSingle` on the respondent's row for this survey;
a hit sets the `alreadySubmitted` state that replaces the form with the
already-submitted view. -/
def loadAlreadySubmitted (db : Db) (surveyId userId : String) : Bool :=
  (db.responses.find? (fun r => r.survey_id == surveyId && r.user_id == userId)).isSome

/-! ## Response comparison (`UserResponseComparison.tsx`) -/

/-- The default-selection branch of `loadComparisonData` (lines 136-140):
`responsesData` is ordered newest-first; two or more rows select the first
two ids, exactly one selects its id, and otherwise the selection keeps its
initial value `[]`. -/
def defaultSelection : List RespRow → List String
  | r0 :: r1 :: _ => [r0.id, r1.id]
  | [r0] => [r0.id]
  | [] => []

/-- `toggleResponseSelection` (lines 165-173): toggling a selected id
filters it out; toggling an unselected id appends it only while fewer than
3 are selected. -/
def toggleResponseSelection (selectedResponses : List String)
    (responseId : String) : List String :=
  if selectedResponses.contains responseId then
    selectedResponses.filter (fun i => i ≠ responseId)
  else if selectedResponses.length < 3 then
    selectedResponses ++ [responseId]
  else
    selectedResponses

/-! ## Survey authoring (`CreateSurvey.tsx`, `handleSave`) -/

/-- The character set stripped by JavaScript `String.prototype.trim`: the
ECMAScript WhiteSpace characters (TAB, VT, FF, SP, NBSP, ZWNBSP, and the
Unicode space separators U+1680, U+2000–U+200A, U+202F, U+205F, U+3000)
together with the LineTerminator characters (LF, CR, LS, PS). -/
def jsWhitespace (c : Char) : Bool :=
  c.toNat = 0x09 || c.toNat = 0x0A || c.toNat = 0x0B || c.toNat = 0x0C ||
  c.toNat = 0x0D || c.toNat = 0x20 || c.toNat = 0xA0 || c.toNat = 0x1680 ||
  (0x2000 ≤ c.toNat && c.toNat ≤ 0x200A) || c.toNat = 0x2028 ||
  c.toNat = 0x2029 || c.toNat = 0x202F || c.toNat = 0x205F ||
  c.toNat = 0x3000 || c.toNat = 0xFEFF

/-- JavaScript `String.prototype.trim`: strip leading and trailing
whitespace (the full ECMAScript whitespace set, `jsWhitespace`), written
out on the character list. -/
def strTrim (s : String) : String :=
  ⟨((s.data.dropWhile jsWhitespace).reverse.dropWhile
      jsWhitespace).reverse⟩

/-- The question shape edited in `CreateSurvey.tsx`:
`Omit<Question, 'id' | 'survey_id' | 'created_at'>`. -/
structure QuestionDraft where
  question_text : String
  question_type : QuestionType
  options : List String
  is_required : Bool
  order_index : Nat
deriving DecidableEq, Repr

/-- A write performed by a successful save: the survey insert followed by
the questions batch insert. -/
inductive SaveWrite
  | surveyRow (title description : String)
  | questionRows (rows : List QuestionDraft)
deriving DecidableEq, Repr

/-- The `for` loop of `handleSave` over the question drafts, carrying the
1-based display index used in the error messages. -/
def validateQuestionList : Nat → List QuestionDraft → Option String
  | _, [] => none
  | i, q :: rest =>
    if strTrim q.question_text = "" then
      some ("问题 " ++ toString (i + 1) ++ " 的内容不能为空")
    else if q.question_type ≠ QuestionType.text ∧ q.options.length < 2 then
      some ("问题 " ++ toString (i + 1) ++ " 至少需要两个选项")
    else
      validateQuestionList (i + 1) rest

/-- `handleSave` of `CreateSurvey.tsx` (lines 63-114): an empty trimmed
title, an empty question list, or the first offending question aborts with
one message and no write; otherwise the survey row and the question rows
are inserted. -/
def handleSave (title description : String) (questions : List QuestionDraft) :
    List SaveWrite × Option String :=
  if strTrim title = "" then
    ([], some "请输入问卷标题")
  else if questions.length = 0 then
    ([], some "请至少添加一个问题")
  else
    match validateQuestionList 0 questions with
    | some msg => ([], some msg)
    | none =>
      ([SaveWrite.surveyRow title description, SaveWrite.questionRows questions],
        none)

/-! ## Shared fixtures and auxiliary lemmas for the claim theorems -/

/-- A choice question fixture with configurable type and options. -/
def qChoice (ty : QuestionType) (opts : List String) : Question :=
  ⟨"q1", "s1", "你最喜欢哪个选项", ty, opts, true, 0, "t0"⟩

/-- The fixture used by the aggregation witnesses. -/
def wQ : Question := qChoice QuestionType.single_choice ["A", "B"]

theorem floor_natCast_div (n d : ℕ) (hd : 0 < d) :
    (⌊(n : ℚ) / d⌋ : ℤ) = (n / d : ℕ) := by
  rw [Int.floor_eq_iff]
  constructor
  · rw [le_div_iff₀]
    · exact_mod_cast Nat.cast_le.mpr (Nat.div_mul_le_self n d)
    · exact_mod_cast hd
  · rw [div_lt_iff₀]
    · have h2 : (n : ℚ) < ((n / d : ℕ) : ℚ) * d + d := by
        exact_mod_cast Nat.lt_div_mul_add hd (a := n)
      have h3 : ((n / d : ℕ) : ℚ) * d + d = (((n / d : ℕ) : ℚ) + 1) * d := by
        ring
      rw [h3] at h2
      exact_mod_cast h2
    · exact_mod_cast hd

/-! ## Claim theorems -/

theorem natLog2Aux_spec : ∀ (fuel n : ℕ), 1 ≤ n → n ≤ fuel →
    2 ^ natLog2Aux fuel n ≤ n ∧ n < 2 ^ (natLog2Aux fuel n + 1) := by
  intro fuel
  induction fuel with
  | zero => intro n h1 h0; omega
  | succ f ih =>
    intro n h1 hf
    unfold natLog2Aux
    by_cases hn : n ≤ 1
    · have hone : n = 1 := by omega
      subst hone
      simp
    · rw [if_neg hn]
      have h2 : 2 ≤ n := by omega
      have hrec := ih (n / 2) (by omega) (by omega)
      have hp1 : 2 ^ (1 + natLog2Aux f (n / 2)) = 2 * 2 ^ natLog2Aux f (n / 2) := by
        rw [pow_add, pow_one]
      have hp2 : 2 ^ (1 + natLog2Aux f (n / 2) + 1) = 2 * 2 ^ (natLog2Aux f (n / 2) + 1) := by
        rw [pow_succ, pow_succ, hp1]
        ring
    -- hrec.1 : 2 ^ k ≤ n / 2, hrec.2 : n / 2 < 2 ^ (k + 1)
      omega

theorem natLog2_spec (n : ℕ) (h : 1 ≤ n) :
    2 ^ natLog2 n ≤ n ∧ n < 2 ^ (natLog2 n + 1) :=
  natLog2Aux_spec n n h le_rfl

theorem rneDiv_abs (a b : ℕ) (hb : 0 < b) :
    |(rneDiv a b : ℚ) - (a : ℚ) / b| ≤ 1 / 2 := by
  have hbq : (0 : ℚ) < (b : ℚ) := by exact_mod_cast hb
  have hkey : (a : ℚ) = ((a / b : ℕ) : ℚ) * b + ((a % b : ℕ) : ℚ) := by
    have hnat : b * (a / b) + a % b = a := Nat.div_add_mod a b
    have hq : ((b * (a / b) + a % b : ℕ) : ℚ) = (a : ℚ) := by exact_mod_cast congrArg Nat.cast hnat
    push_cast at hq
    linarith
  have hdiv : (a : ℚ) / b = ((a / b : ℕ) : ℚ) + ((a % b : ℕ) : ℚ) / b := by
    rw [hkey, add_div, mul_div_assoc, div_self (ne_of_gt hbq), mul_one]
  have ht0 : (0 : ℚ) ≤ ((a % b : ℕ) : ℚ) / b := by positivity
  have ht1 : ((a % b : ℕ) : ℚ) / b < 1 := by
    rw [div_lt_one hbq]
    exact_mod_cast Nat.mod_lt a hb
  unfold rneDiv
  by_cases h1 : 2 * (a % b) < b
  · rw [if_pos h1, hdiv]
    have htlt : ((a % b : ℕ) : ℚ) / b ≤ 1 / 2 := by
      rw [div_le_div_iff₀ hbq (by norm_num)]
      have h1q : ((2 * (a % b) : ℕ) : ℚ) ≤ (b : ℚ) := by
        exact_mod_cast le_of_lt h1
      push_cast at h1q
      linarith
    have heq : ((a / b : ℕ) : ℚ) - (((a / b : ℕ) : ℚ) + ((a % b : ℕ) : ℚ) / b) =
        -(((a % b : ℕ) : ℚ) / b) := by ring
    rw [heq, abs_neg, abs_of_nonneg ht0]
    exact htlt
  · rw [if_neg h1]
    have htge : (1 : ℚ) / 2 ≤ ((a % b : ℕ) : ℚ) / b := by
      rw [div_le_div_iff₀ (by norm_num) hbq]
      have h1q : (b : ℚ) ≤ ((2 * (a % b) : ℕ) : ℚ) := by
        exact_mod_cast Nat.le_of_not_lt h1
      push_cast at h1q
      linarith
    have habs1 : |((a / b + 1 : ℕ) : ℚ) - (a : ℚ) / b| ≤ 1 / 2 := by
      rw [hdiv]
      have heq : ((a / b + 1 : ℕ) : ℚ) - (((a / b : ℕ) : ℚ) + ((a % b : ℕ) : ℚ) / b) =
          1 - ((a % b : ℕ) : ℚ) / b := by push_cast; ring
      rw [heq, abs_of_nonneg (by linarith)]
      linarith
    by_cases h2 : b < 2 * (a % b)
    · rw [if_pos h2]
      exact habs1
    · have heqhalf : ((a % b : ℕ) : ℚ) / b = 1 / 2 := by
        have hb2 : 2 * (a % b) = b := by omega
        rw [div_eq_div_iff (ne_of_gt hbq) (by norm_num)]
        have h1q : ((2 * (a % b) : ℕ) : ℚ) = (b : ℚ) := by exact_mod_cast congrArg Nat.cast hb2
        push_cast at h1q
        linarith
      rw [if_neg h2]
      by_cases h3 : (a / b) % 2 = 0
      · rw [if_pos h3, hdiv, heqhalf]
        have heq : ((a / b : ℕ) : ℚ) - (((a / b : ℕ) : ℚ) + 1 / 2) = -(1 / 2) := by ring
        rw [heq, abs_neg, abs_of_nonneg (by norm_num)]
      · rw [if_neg h3]
        exact habs1

theorem rneScaled_abs (a b : ℕ) (hb : 0 < b) (k : ℤ) :
    |(rneScaled a b k : ℚ) - (a : ℚ) / b * 2 ^ k| ≤ 1 / 2 := by
  unfold rneScaled
  by_cases hk : 0 ≤ k
  · rw [if_pos hk]
    have hval : ((a * 2 ^ k.toNat : ℕ) : ℚ) / b = (a : ℚ) / b * 2 ^ k := by
      have hk2 : (2 : ℚ) ^ k = 2 ^ k.toNat := by
        rw [← zpow_natCast, Int.toNat_of_nonneg hk]
      rw [hk2]
      push_cast
      ring
    rw [← hval]
    exact rneDiv_abs _ b hb
  · rw [if_neg hk]
    have hm : (0 : ℤ) ≤ -k := by omega
    have hval : ((a : ℕ) : ℚ) / ((b * 2 ^ (-k).toNat : ℕ) : ℚ) =
        (a : ℚ) / b * 2 ^ k := by
      have hk2 : (2 : ℚ) ^ k = ((2 : ℚ) ^ (-k).toNat)⁻¹ := by
        rw [← zpow_natCast, Int.toNat_of_nonneg hm, zpow_neg, inv_inv]
      rw [hk2]
      push_cast
      rw [← div_div, div_eq_mul_inv]
    rw [← hval]
    exact rneDiv_abs a _ (by positivity)

theorem zpow_sub_cast (x y : ℕ) :
    (2 : ℚ) ^ ((x : ℤ) - (y : ℤ)) = (2 ^ x : ℕ) / ((2 ^ y : ℕ) : ℚ) := by
  rw [zpow_sub₀ (by norm_num), zpow_natCast, zpow_natCast]
  push_cast
  ring

theorem ratLog2_spec (a b : ℕ) (ha : 0 < a) (hb : 0 < b) :
    (2 : ℚ) ^ ratLog2 a b ≤ (a : ℚ) / b ∧
      (a : ℚ) / b < 2 ^ (ratLog2 a b + 1) := by
  have hbq : (0 : ℚ) < (b : ℚ) := by exact_mod_cast hb
  have hla := natLog2_spec a ha
  have hlb := natLog2_spec b hb
  unfold ratLog2
  by_cases hcond : a * 2 ^ natLog2 b < 2 ^ natLog2 a * b
  · rw [if_pos hcond]
    constructor
    · -- 2 ^ (la - lb - 1) ≤ a / b  ⟺  2 ^ la * b ≤ 2 * (a * 2 ^ lb)
      have hnat : 2 ^ natLog2 a * b ≤ 2 * (a * 2 ^ natLog2 b) := by
        calc 2 ^ natLog2 a * b ≤ a * b := by
              exact Nat.mul_le_mul_right b hla.1
          _ ≤ a * (2 ^ (natLog2 b + 1)) := by
              exact Nat.mul_le_mul_left a (le_of_lt hlb.2)
          _ = 2 * (a * 2 ^ natLog2 b) := by ring
      have hsub : ((natLog2 a : ℤ) - natLog2 b - 1) = ((natLog2 a : ℤ) - (natLog2 b + 1 : ℕ)) := by
        push_cast
        ring
      rw [hsub, zpow_sub_cast, div_le_div_iff₀ (by positivity) hbq]
      have hq : ((2 ^ natLog2 a * b : ℕ) : ℚ) ≤ ((2 * (a * 2 ^ natLog2 b) : ℕ) : ℚ) := by
        exact_mod_cast hnat
      push_cast at hq
      push_cast
      rw [pow_succ]
      nlinarith
    · -- a / b < 2 ^ (la - lb)  ⟺  a * 2 ^ lb < 2 ^ la * b
      have hsub : ((natLog2 a : ℤ) - natLog2 b - 1 + 1) = ((natLog2 a : ℤ) - natLog2 b) := by ring
      rw [hsub, zpow_sub_cast, div_lt_div_iff₀ hbq (by positivity)]
      have hq : ((a * 2 ^ natLog2 b : ℕ) : ℚ) < ((2 ^ natLog2 a * b : ℕ) : ℚ) := by
        exact_mod_cast hcond
      push_cast at hq
      push_cast
      linarith
  · rw [if_neg hcond]
    constructor
    · rw [zpow_sub_cast, div_le_div_iff₀ (by positivity) hbq]
      have hq : ((2 ^ natLog2 a * b : ℕ) : ℚ) ≤ ((a * 2 ^ natLog2 b : ℕ) : ℚ) := by
        exact_mod_cast Nat.le_of_not_lt hcond
      push_cast at hq
      push_cast
      linarith
    · have hsub : ((natLog2 a : ℤ) - natLog2 b + 1) = (((natLog2 a + 1 : ℕ) : ℤ) - natLog2 b) := by
        push_cast
        ring
      rw [hsub, zpow_sub_cast, div_lt_div_iff₀ hbq (by positivity)]
      have hnat : a * 2 ^ natLog2 b < 2 ^ (natLog2 a + 1) * b := by
        calc a * 2 ^ natLog2 b < 2 ^ (natLog2 a + 1) * 2 ^ natLog2 b := by
              exact (Nat.mul_lt_mul_right (Nat.two_pow_pos _)).mpr hla.2
          _ ≤ 2 ^ (natLog2 a + 1) * b := by
              exact Nat.mul_le_mul_left _ hlb.1
      have hq : ((a * 2 ^ natLog2 b : ℕ) : ℚ) < ((2 ^ (natLog2 a + 1) * b : ℕ) : ℚ) := by
        exact_mod_cast hnat
      push_cast at hq
      push_cast
      linarith

theorem floorHalfUpDyadic_eq (n : ℕ) (k : ℤ) :
    (floorHalfUpDyadic n k : ℤ) = ⌊(n : ℚ) * 2 ^ (-k) + 1 / 2⌋ := by
  unfold floorHalfUpDyadic
  by_cases hk : 0 ≤ k
  · rw [if_pos hk]
    have hk2 : (2 : ℚ) ^ (-k) = ((2 : ℚ) ^ k.toNat)⁻¹ := by
      rw [← zpow_natCast, Int.toNat_of_nonneg hk, zpow_neg]
    have hval : (n : ℚ) * 2 ^ (-k) + 1 / 2 =
        ((2 * n + 2 ^ k.toNat : ℕ) : ℚ) / ((2 ^ (k.toNat + 1) : ℕ) : ℚ) := by
      rw [hk2]
      push_cast
      have hpos : (0 : ℚ) < 2 ^ k.toNat := by positivity
      field_simp
      ring
    rw [hval, floor_natCast_div _ _ (Nat.two_pow_pos _)]
  · rw [if_neg hk]
    have hm : (0 : ℤ) ≤ -k := by omega
    have hk2 : (2 : ℚ) ^ (-k) = 2 ^ (-k).toNat := by
      rw [← zpow_natCast, Int.toNat_of_nonneg hm]
    rw [hk2]
    have hval : (n : ℚ) * 2 ^ (-k).toNat = ((n * 2 ^ (-k).toNat : ℕ) : ℚ) := by
      push_cast
      ring
    rw [hval]
    have : ∀ z : ℕ, ⌊((z : ℕ) : ℚ) + 1 / 2⌋ = (z : ℤ) := by
      intro z
      rw [show ((z : ℕ) : ℚ) = ((z : ℤ) : ℚ) from by push_cast; ring, add_comm,
        Int.floor_add_int]
      norm_num
    rw [this]

theorem dyadicMul100_val (n1 : ℕ) (e1 : ℤ) :
    (((dyadicMul100 n1 e1).1 : ℚ) / ((dyadicMul100 n1 e1).2 : ℚ) =
      100 * (n1 : ℚ) * 2 ^ (e1 - 52)) ∧
    0 < (dyadicMul100 n1 e1).2 ∧ (0 < n1 → 0 < (dyadicMul100 n1 e1).1) := by
  unfold dyadicMul100
  by_cases hk : 0 ≤ 52 - e1
  · rw [if_pos hk]
    refine ⟨?_, Nat.two_pow_pos _, fun h => by positivity⟩
    have hk2 : (2 : ℚ) ^ (e1 - 52) = ((2 : ℚ) ^ (52 - e1).toNat)⁻¹ := by
      rw [← zpow_natCast, Int.toNat_of_nonneg hk,
        show (e1 - 52 : ℤ) = -(52 - e1) from by ring, zpow_neg]
    rw [hk2]
    push_cast
    rw [div_eq_mul_inv]
  · rw [if_neg hk]
    refine ⟨?_, by norm_num, fun h => by positivity⟩
    have hm : (0 : ℤ) ≤ e1 - 52 := by omega
    have hk2 : (2 : ℚ) ^ (e1 - 52) = 2 ^ (e1 - 52).toNat := by
      rw [← zpow_natCast, Int.toNat_of_nonneg hm]
    rw [hk2]
    push_cast
    ring

theorem roundStep (a b : ℕ) (ha : 0 < a) (hb : 0 < b) :
    |(roundToB64Sig a b : ℚ) * 2 ^ (ratLog2 a b - 52) - (a : ℚ) / b| ≤
      (a : ℚ) / b * ((2 : ℚ) ^ (53 : ℕ))⁻¹ ∧ 0 < roundToB64Sig a b := by
  have hq : (0 : ℚ) < (a : ℚ) / b := by positivity
  have h1 := rneScaled_abs a b hb (52 - ratLog2 a b)
  have hp : (0 : ℚ) < 2 ^ (ratLog2 a b - 52) := zpow_pos (by norm_num) _
  have h2 : |((rneScaled a b (52 - ratLog2 a b) : ℕ) : ℚ) -
      (a : ℚ) / b * 2 ^ (52 - ratLog2 a b)| * 2 ^ (ratLog2 a b - 52) ≤
      1 / 2 * 2 ^ (ratLog2 a b - 52) :=
    mul_le_mul_of_nonneg_right h1 (le_of_lt hp)
  rw [← abs_of_pos hp, ← abs_mul, abs_of_pos hp] at h2
  have hone : (2 : ℚ) ^ (52 - ratLog2 a b) * 2 ^ (ratLog2 a b - 52) = 1 := by
    rw [← zpow_add₀ (by norm_num : (2 : ℚ) ≠ 0)]
    norm_num
  have hexp : (((rneScaled a b (52 - ratLog2 a b) : ℕ) : ℚ) -
      (a : ℚ) / b * 2 ^ (52 - ratLog2 a b)) * 2 ^ (ratLog2 a b - 52) =
      ((rneScaled a b (52 - ratLog2 a b) : ℕ) : ℚ) * 2 ^ (ratLog2 a b - 52) -
        (a : ℚ) / b := by
    calc (((rneScaled a b (52 - ratLog2 a b) : ℕ) : ℚ) -
        (a : ℚ) / b * 2 ^ (52 - ratLog2 a b)) * 2 ^ (ratLog2 a b - 52) =
        ((rneScaled a b (52 - ratLog2 a b) : ℕ) : ℚ) * 2 ^ (ratLog2 a b - 52) -
          (a : ℚ) / b * (2 ^ (52 - ratLog2 a b) * 2 ^ (ratLog2 a b - 52)) := by
          ring
      _ = _ := by rw [hone, mul_one]
  rw [hexp] at h2
  have hneg52 : (2 : ℚ) ^ ((-52 : ℤ)) = ((2 : ℚ) ^ (52 : ℕ))⁻¹ := by
    rw [show ((-52 : ℤ)) = -((52 : ℕ) : ℤ) from by norm_num, zpow_neg,
      zpow_natCast]
  have hsplit : (1 / 2 : ℚ) * 2 ^ (ratLog2 a b - 52) =
      2 ^ ratLog2 a b * ((2 : ℚ) ^ (53 : ℕ))⁻¹ := by
    rw [show (ratLog2 a b - 52 : ℤ) = ratLog2 a b + (-52 : ℤ) from by ring,
      zpow_add₀ (by norm_num : (2 : ℚ) ≠ 0), hneg52]
    rw [show ((2 : ℚ) ^ (53 : ℕ)) = 2 ^ (52 : ℕ) * 2 from by rw [pow_succ]]
    rw [mul_inv]
    ring
  have hle : (2 : ℚ) ^ ratLog2 a b ≤ (a : ℚ) / b := (ratLog2_spec a b ha hb).1
  have hbound : (1 / 2 : ℚ) * 2 ^ (ratLog2 a b - 52) ≤
      (a : ℚ) / b * ((2 : ℚ) ^ (53 : ℕ))⁻¹ := by
    rw [hsplit]
    exact mul_le_mul_of_nonneg_right hle (by positivity)
  have habs : |(roundToB64Sig a b : ℚ) * 2 ^ (ratLog2 a b - 52) - (a : ℚ) / b| ≤
      (a : ℚ) / b * ((2 : ℚ) ^ (53 : ℕ))⁻¹ := le_trans h2 hbound
  refine ⟨habs, ?_⟩
  rw [abs_le] at habs
  have hsmall : (a : ℚ) / b * ((2 : ℚ) ^ (53 : ℕ))⁻¹ < (a : ℚ) / b := by
    have h53 : (1 : ℚ) < 2 ^ (53 : ℕ) := by norm_num
    nlinarith [hq]
  have hvpos : (0 : ℚ) < (roundToB64Sig a b : ℚ) * 2 ^ (ratLog2 a b - 52) := by
    nlinarith [habs.1]
  by_contra hz
  have : roundToB64Sig a b = 0 := by omega
  rw [this] at hvpos
  simp at hvpos

theorem pctMathRound_eq (a b : ℕ) :
    (pctMathRound a b : ℤ) =
      ⌊(roundToB64Sig a b : ℚ) * 2 ^ (ratLog2 a b - 52) + 1 / 2⌋ := by
  unfold pctMathRound
  rw [floorHalfUpDyadic_eq, neg_sub]

theorem rneDiv_zero (b : ℕ) (hb : 0 < b) : rneDiv 0 b = 0 := by
  unfold rneDiv
  simp [Nat.zero_mod, Nat.zero_div, hb]

theorem rneScaled_zero (b : ℕ) (k : ℤ) (hb : 0 < b) : rneScaled 0 b k = 0 := by
  unfold rneScaled
  by_cases hk : 0 ≤ k
  · rw [if_pos hk, Nat.zero_mul]
    exact rneDiv_zero b hb
  · rw [if_neg hk]
    exact rneDiv_zero _ (by positivity)

theorem floorHalfUpDyadic_zero (k : ℤ) : floorHalfUpDyadic 0 k = 0 := by
  unfold floorHalfUpDyadic
  by_cases hk : 0 ≤ k
  · rw [if_pos hk]
    apply Nat.div_eq_of_lt
    have h1 := Nat.two_pow_pos k.toNat
    rw [pow_succ]
    omega
  · rw [if_neg hk]
    exact Nat.zero_mul _

theorem getPercentage_zero_count (total : ℕ) : getPercentage 0 total = 0 := by
  unfold getPercentage
  by_cases ht : total = 0
  · rw [if_pos ht]
  · rw [if_neg ht]
    have htp : 0 < total := Nat.pos_of_ne_zero ht
    have hsig : roundToB64Sig 0 total = 0 := by
      unfold roundToB64Sig
      exact rneScaled_zero total _ htp
    have ha2 : (dyadicMul100 (roundToB64Sig 0 total) (ratLog2 0 total)).1 = 0 := by
      rw [hsig]
      unfold dyadicMul100
      by_cases hk : 0 ≤ 52 - ratLog2 0 total
      · rw [if_pos hk]
      · rw [if_neg hk]
        simp
    have hb2 : 0 < (dyadicMul100 (roundToB64Sig 0 total) (ratLog2 0 total)).2 :=
      (dyadicMul100_val _ _).2.1
    rw [ha2]
    set b2 := (dyadicMul100 (roundToB64Sig 0 total) (ratLog2 0 total)).2
      with hb2def
    unfold pctMathRound roundToB64Sig
    rw [rneScaled_zero _ _ hb2]
    exact floorHalfUpDyadic_zero _

theorem floor_abs_le_one (p q : ℚ) (h : |p - q| ≤ 1) : |⌊p⌋ - ⌊q⌋| ≤ 1 := by
  rw [abs_le] at h ⊢
  constructor
  · have hle : q - 1 ≤ p := by linarith
    have h2 := Int.floor_le_floor hle
    rw [show (q - 1 : ℚ) = q + ((-1 : ℤ) : ℚ) from by push_cast; ring,
      Int.floor_add_int] at h2
    omega
  · have hle : p ≤ q + 1 := by linarith
    have h2 := Int.floor_le_floor hle
    rw [show (q + 1 : ℚ) = q + ((1 : ℤ) : ℚ) from by push_cast; ring,
      Int.floor_add_int] at h2
    omega

/-- Counterexample for C3 as stated: at 23 answers out of 40 the program's
binary64 evaluation of `Math.round((23 / 40) * 100)` yields 57 (the double
product is 57.49999999999999...), while exact rounding of
`23 / 40 × 100 = 57.5` gives 58, so the reported percentage does not equal
`round(count / totalAnswersForThatQuestion × 100)`. -/
theorem getPercentage_round_counterexample :
    getPercentage 23 40 = 57 ∧
    round (((23 : ℕ) : ℚ) / ((40 : ℕ) : ℚ) * 100) = 58 :=
  ⟨by decide, by norm_num [round_eq]⟩

/-- C3 (amended): the reported percentage is the binary64 evaluation of
`Math.round((count / total) * 100)`; for counts up to `2^43 · total` it
differs from the exact `round(count / total × 100)` by at most 1 (floating
point rounding, e.g. 57 rather than 58 at 23 of 40), and when the
question has zero answers the percentage is 0, never NaN or a division
error. -/
theorem getPercentage_near_exact (count total : ℕ)
    (hc : count ≤ 2 ^ 43 * total) :
    (total = 0 → getPercentage count total = 0) ∧
    (total ≠ 0 →
      |(getPercentage count total : ℤ) -
        round ((count : ℚ) / total * 100)| ≤ 1) := by
  constructor
  · intro h
    unfold getPercentage
    rw [if_pos h]
  · intro ht
    have htp : 0 < total := Nat.pos_of_ne_zero ht
    have htq : (0 : ℚ) < (total : ℚ) := by exact_mod_cast htp
    by_cases hcz : count = 0
    · subst hcz
      rw [getPercentage_zero_count total]
      norm_num
    · have hcp : 0 < count := Nat.pos_of_ne_zero hcz
      have hq : (0 : ℚ) < (count : ℚ) / total := by positivity
      obtain ⟨h1, hn1pos⟩ := roundStep count total hcp htp
      obtain ⟨hab, hb2, ha2f⟩ :=
        dyadicMul100_val (roundToB64Sig count total) (ratLog2 count total)
      have ha2 : 0 < (dyadicMul100 (roundToB64Sig count total)
          (ratLog2 count total)).1 := ha2f hn1pos
      obtain ⟨h2, hn2pos⟩ := roundStep _ _ ha2 hb2
      have hgp : getPercentage count total =
          pctMathRound
            (dyadicMul100 (roundToB64Sig count total) (ratLog2 count total)).1
            (dyadicMul100 (roundToB64Sig count total) (ratLog2 count total)).2 := by
        unfold getPercentage
        rw [if_neg ht]
      set x : ℚ := (count : ℚ) / total with hx
      set v1 : ℚ := (roundToB64Sig count total : ℚ) *
        2 ^ (ratLog2 count total - 52) with hv1
      set a2 := (dyadicMul100 (roundToB64Sig count total)
        (ratLog2 count total)).1
      set b2 := (dyadicMul100 (roundToB64Sig count total)
        (ratLog2 count total)).2
      set v2 : ℚ := (roundToB64Sig a2 b2 : ℚ) * 2 ^ (ratLog2 a2 b2 - 52)
        with hv2
      have hq2 : (a2 : ℚ) / b2 = 100 * v1 := by
        rw [hab, hv1]
        ring
      rw [hq2] at h2
      have htinv : ((2 : ℚ) ^ (53 : ℕ))⁻¹ = 1 / 9007199254740992 := by
        norm_num
      rw [htinv] at h1 h2
      have hx43 : x ≤ 8796093022208 := by
        rw [hx, div_le_iff₀ htq]
        calc (count : ℚ) ≤ ((2 ^ 43 * total : ℕ) : ℚ) := by exact_mod_cast hc
          _ = 8796093022208 * total := by push_cast; norm_num
      rw [abs_le] at h1 h2
      have hv1pos : 0 < v1 := by nlinarith [h1.1, hq]
      have hdelta : |v2 - 100 * x| ≤ 1 := by
        rw [abs_le]
        constructor
        · nlinarith [h1.1, h2.1, hq, hx43, hv1pos]
        · nlinarith [h1.2, h2.2, hq, hx43, hv1pos]
      rw [hgp, pctMathRound_eq, round_eq]
      have harg : (x * 100 + 1 / 2 : ℚ) = 100 * x + 1 / 2 := by ring
      rw [harg]
      apply floor_abs_le_one
      have : (v2 + 1 / 2) - (100 * x + 1 / 2) = v2 - 100 * x := by ring
      rw [this]
      exact hdelta

/-- Witness for C3 (amended) at `count = 23, total = 40` (the program
reports 57 against the exact 58, within the proved distance 1) and at
`total = 0`. -/
theorem getPercentage_near_exact_witness :
    getPercentage 0 0 = 0 ∧
    |(getPercentage 23 40 : ℤ) -
      round (((23 : ℕ) : ℚ) / ((40 : ℕ) : ℚ) * 100)| ≤ 1 :=
  ⟨(getPercentage_near_exact 0 0 (by decide)).1 rfl,
   (getPercentage_near_exact 23 40 (by decide)).2 (by decide)⟩

/-- C10: in the tallying loop a list-valued answer increments the counter of
each listed element once per occurrence (a duplicated option counts twice),
while a string-valued answer increments exactly the counter keyed by that
string. -/
theorem tally_per_occurrence (questionAnswers : List AnswerValue)
    (l : List String) (s k : String) :
    (tallyAnswers (questionAnswers ++ [AnswerValue.list l]) k =
      tallyAnswers questionAnswers k + l.count k) ∧
    (tallyAnswers (questionAnswers ++ [AnswerValue.str s]) k =
      tallyAnswers questionAnswers k + (if k = s then 1 else 0)) ∧
    tallyAnswers [AnswerValue.list ["A", "A"]] "A" = 2 := by
  refine ⟨?_, ?_, by decide⟩
  · rw [tallyAnswers_append_one]
    rfl
  · rw [tallyAnswers_append_one]
    rfl

/-- C2: the reported counts cover every declared option: each option of the
question appears in `optionCounts` with its tally, and an option selected by
no answer appears with count 0. -/
theorem optionCounts_cover (q : Question) (questionAnswers : List AnswerValue) :
    ∀ opt ∈ q.options,
      (opt, tallyAnswers questionAnswers opt) ∈ optionCounts q questionAnswers ∧
      ((∀ a ∈ questionAnswers, a.selects opt = false) →
        (opt, 0) ∈ optionCounts q questionAnswers) := by
  intro opt hopt
  constructor
  · exact List.mem_map_of_mem _ hopt
  · intro hnone
    have hz : tallyAnswers questionAnswers opt = 0 := by
      rw [tallyAnswers_apply]
      apply List.sum_eq_zero
      intro x hx
      simp only [List.mem_map] at hx
      obtain ⟨a, ha, hxa⟩ := hx
      rw [← hxa]
      exact selects_false_occurrences a opt (hnone a ha)
    rw [← hz]
    exact List.mem_map_of_mem _ hopt

/-- Witness for C2: option "B" of the fixture question is reported, with
count 0 since the single answer selects only "A". -/
theorem optionCounts_cover_witness :
    ("B", tallyAnswers [AnswerValue.str "A"] "B") ∈
      optionCounts wQ [AnswerValue.str "A"] ∧
    ("B", 0) ∈ optionCounts wQ [AnswerValue.str "A"] :=
  ⟨(optionCounts_cover wQ [AnswerValue.str "A"] "B" (by decide)).1,
   (optionCounts_cover wQ [AnswerValue.str "A"] "B" (by decide)).2 (by decide)⟩

/-- Counterexample for C5 as stated: the answer `["A","X"]` references the
option "X" that is not among the declared options ["A","B"], yet it is not
ignored as a whole — it still increments the declared option "A", so the
declared options' counts are affected by that answer value. -/
theorem strayReference_counterexample :
    optionCounts wQ ([] ++ [AnswerValue.list ["A", "X"]]) ≠
      optionCounts wQ ([] : List AnswerValue) ∧
    optionCounts wQ [AnswerValue.list ["A", "X"]] = [("A", 1), ("B", 0)] := by
  decide

/-- C5 (amended): appending any answer changes each declared option's tally
by exactly the number of occurrences of that option in the answer's value,
so a reference to an undeclared option contributes nothing to any declared
option's count and raises no error; in particular an answer referencing
only undeclared options leaves the reported counts unchanged. -/
theorem strayReference_ignored (q : Question)
    (questionAnswers : List AnswerValue) (a : AnswerValue) :
    (∀ opt ∈ q.options,
      tallyAnswers (questionAnswers ++ [a]) opt =
        tallyAnswers questionAnswers opt + a.occurrences opt) ∧
    ((∀ opt ∈ q.options, a.selects opt = false) →
      optionCounts q (questionAnswers ++ [a]) =
        optionCounts q questionAnswers) := by
  constructor
  · intro opt _
    exact tallyAnswers_append_one questionAnswers a opt
  · intro h
    unfold optionCounts
    apply List.map_congr_left
    intro opt hopt
    rw [tallyAnswers_append_one, selects_false_occurrences a opt (h opt hopt)]
    simp

/-- Witness for C5 (amended): the mixed answer `["A","X"]` adds exactly its
one occurrence of "A" to A's tally, and the answer "C" referencing only an
undeclared option leaves the reported counts unchanged. -/
theorem strayReference_ignored_witness :
    tallyAnswers ([AnswerValue.str "B"] ++ [AnswerValue.list ["A", "X"]]) "A" =
      tallyAnswers [AnswerValue.str "B"] "A" +
        (AnswerValue.list ["A", "X"]).occurrences "A" ∧
    optionCounts wQ ([AnswerValue.str "A"] ++ [AnswerValue.str "C"]) =
      optionCounts wQ [AnswerValue.str "A"] :=
  ⟨(strayReference_ignored wQ [AnswerValue.str "B"]
      (AnswerValue.list ["A", "X"])).1 "A" (by decide),
   (strayReference_ignored wQ [AnswerValue.str "A"]
      (AnswerValue.str "C")).2 (by decide)⟩

/-- Counterexample for C4 as stated: a single-select question with declared
options ["A","B"] and the single answer "C" (not among the declared options)
reports per-option counts summing to 0, not to the answer count 1; the
stray answer is silently dropped from all declared tallies. -/
theorem singleChoiceSum_counterexample :
    ((optionCounts (qChoice QuestionType.single_choice ["A", "B"])
        [AnswerValue.str "C"]).map Prod.snd).sum = 0 ∧
    (([AnswerValue.str "C"] : List AnswerValue).length = 1) := by
  decide

/-- C4 (amended): when the declared option list has no duplicates and every
answer to a single-select question is one declared option, the reported
per-option counts sum to the number of answers; a multi-select answer list
can push the sum beyond the answer count; and the concrete survey with
options ["A","B"] and answers ["A","A","B"] reports A: 2 (67%), B: 1 (33%)
out of 3 answers. -/
theorem singleChoiceSum (q : Question) (questionAnswers : List AnswerValue)
    (hnodup : q.options.Nodup)
    (hval : ∀ a ∈ questionAnswers,
      ∃ s, a = AnswerValue.str s ∧ s ∈ q.options) :
    ((optionCounts q questionAnswers).map Prod.snd).sum =
      questionAnswers.length ∧
    ((optionCounts (qChoice QuestionType.multiple_choice ["A", "B"])
        [AnswerValue.list ["A", "B"]]).map Prod.snd).sum >
      ([AnswerValue.list ["A", "B"]] : List AnswerValue).length ∧
    (optionCounts (qChoice QuestionType.single_choice ["A", "B"])
        [AnswerValue.str "A", AnswerValue.str "A", AnswerValue.str "B"] =
      [("A", 2), ("B", 1)] ∧
      getPercentage 2 3 = 67 ∧ getPercentage 1 3 = 33 ∧
      ([AnswerValue.str "A", AnswerValue.str "A", AnswerValue.str "B"] :
        List AnswerValue).length = 3) := by
  refine ⟨?_, by decide, by decide⟩
  unfold optionCounts
  rw [List.map_map]
  have h1 : q.options.map (Prod.snd ∘ fun option =>
      (option, tallyAnswers questionAnswers option)) =
      q.options.map (fun o =>
        (questionAnswers.map (fun a => a.occurrences o)).sum) :=
    List.map_congr_left (fun o _ => tallyAnswers_apply questionAnswers o)
  rw [h1, sum_map_swap]
  apply sum_map_eq_length
  intro a ha
  obtain ⟨s, rfl, hs⟩ := hval a ha
  have h2 : q.options.map (fun o => (AnswerValue.str s).occurrences o) =
      q.options.map (fun o => if o = s then 1 else 0) :=
    List.map_congr_left (fun o _ => rfl)
  rw [h2, sum_map_indicator]
  exact List.count_eq_one_of_mem hnodup hs

/-- Witness for C4 (amended) on the concrete ["A","A","B"] survey. -/
theorem singleChoiceSum_witness :
    ((optionCounts wQ [AnswerValue.str "A", AnswerValue.str "A",
        AnswerValue.str "B"]).map Prod.snd).sum =
      ([AnswerValue.str "A", AnswerValue.str "A", AnswerValue.str "B"] :
        List AnswerValue).length :=
  (singleChoiceSum wQ
    [AnswerValue.str "A", AnswerValue.str "A", AnswerValue.str "B"]
    (by decide)
    (by
      intro a ha
      simp only [List.mem_cons, List.not_mem_nil, or_false] at ha
      rcases ha with rfl | rfl | rfl
      · exact ⟨"A", rfl, by decide⟩
      · exact ⟨"A", rfl, by decide⟩
      · exact ⟨"B", rfl, by decide⟩)).1

/-- C6: the comparison view's default selection is empty for an empty
newest-first response history, the single response's id for a one-element
history, and the ids of the two most recent responses (the first two rows)
for a history of two or more. -/
theorem defaultSelection_correct (responses : List RespRow) :
    (responses.length = 0 → defaultSelection responses = []) ∧
    (responses.length = 1 →
      ∃ r, responses = [r] ∧ defaultSelection responses = [r.id]) ∧
    (2 ≤ responses.length →
      ∃ r0 r1 rest, responses = r0 :: r1 :: rest ∧
        defaultSelection responses = [r0.id, r1.id]) := by
  match responses with
  | [] => exact ⟨fun _ => rfl, fun h => by simp at h, fun h => by simp at h⟩
  | [r] =>
    exact ⟨fun h => by simp at h, fun _ => ⟨r, rfl, rfl⟩, fun h => by simp at h⟩
  | r0 :: r1 :: rest =>
    exact ⟨fun h => by simp at h, fun h => by simp at h,
      fun _ => ⟨r0, r1, rest, rfl, rfl⟩⟩

/-- Witness for C6 on a concrete three-element history. -/
theorem defaultSelection_correct_witness :
    ∃ r0 r1 rest,
      ([⟨"r3", "s1", "u1"⟩, ⟨"r2", "s1", "u1"⟩, ⟨"r1", "s1", "u1"⟩] :
        List RespRow) = r0 :: r1 :: rest ∧
      defaultSelection
        [⟨"r3", "s1", "u1"⟩, ⟨"r2", "s1", "u1"⟩, ⟨"r1", "s1", "u1"⟩] =
        [r0.id, r1.id] :=
  (defaultSelection_correct
    [⟨"r3", "s1", "u1"⟩, ⟨"r2", "s1", "u1"⟩, ⟨"r1", "s1", "u1"⟩]).2.2
    (by decide)

theorem toggle_length_le (selectedResponses : List String)
    (responseId : String) (h : selectedResponses.length ≤ 3) :
    (toggleResponseSelection selectedResponses responseId).length ≤ 3 := by
  unfold toggleResponseSelection
  by_cases hc : selectedResponses.contains responseId
  · rw [if_pos hc]
    exact le_trans (List.length_filter_le _ _) h
  · rw [if_neg hc]
    by_cases hl : selectedResponses.length < 3
    · rw [if_pos hl]
      simp
      omega
    · rw [if_neg hl]
      exact h

theorem foldl_toggle_le (ids : List String) (sel : List String)
    (h : sel.length ≤ 3) :
    (ids.foldl toggleResponseSelection sel).length ≤ 3 := by
  induction ids generalizing sel with
  | nil => simpa using h
  | cons i rest ih =>
    rw [List.foldl_cons]
    exact ih _ (toggle_length_le sel i h)

/-- C7: starting from any default selection, every sequence of toggle
operations keeps at most 3 selected responses; toggling a selected id
removes it, toggling an unselected id appends it only while fewer than 3
are selected and otherwise leaves the selection unchanged. -/
theorem selection_cap (rs : List RespRow) (ids : List String) :
    (ids.foldl toggleResponseSelection (defaultSelection rs)).length ≤ 3 ∧
    (∀ sel i, sel.contains i = true →
      toggleResponseSelection sel i = sel.filter (fun j => j ≠ i)) ∧
    (∀ sel i, sel.contains i = false → sel.length < 3 →
      toggleResponseSelection sel i = sel ++ [i]) ∧
    (∀ sel i, sel.contains i = false → ¬sel.length < 3 →
      toggleResponseSelection sel i = sel) := by
  refine ⟨?_, ?_, ?_, ?_⟩
  · apply foldl_toggle_le
    cases rs with
    | nil => simp [defaultSelection]
    | cons r0 rest =>
      cases rest with
      | nil => simp [defaultSelection]
      | cons r1 rest2 => simp [defaultSelection]
  · intro sel i hc
    unfold toggleResponseSelection
    rw [if_pos hc]
  · intro sel i hc hl
    unfold toggleResponseSelection
    rw [if_neg (by rw [hc]; simp), if_pos hl]
  · intro sel i hc hl
    unfold toggleResponseSelection
    rw [if_neg (by rw [hc]; simp), if_neg hl]

/-- Witness for C7: toggling a selected id removes it, and toggling an
unselected id below the cap appends it. -/
theorem selection_cap_witness :
    toggleResponseSelection ["a"] "a" = List.filter (fun j => j ≠ "a") ["a"] ∧
    toggleResponseSelection ["a"] "b" = ["a"] ++ ["b"] :=
  ⟨(selection_cap [] []).2.1 ["a"] "a" (by decide),
   (selection_cap [] []).2.2.1 ["a"] "b" (by decide) (by decide)⟩

theorem find?_first {α : Type} (p : α → Bool) (l : List α)
    (h : ∃ x ∈ l, p x = true) :
    ∃ pre x post, l = pre ++ x :: post ∧ (∀ y ∈ pre, p y = false) ∧
      p x = true ∧ l.find? p = some x := by
  induction l with
  | nil => simp at h
  | cons a rest ih =>
    by_cases ha : p a = true
    · exact ⟨[], a, rest, rfl, by simp, ha, List.find?_cons_of_pos _ ha⟩
    · have ha' : p a = false := by
        cases hpa : p a
        · rfl
        · exact absurd hpa ha
      obtain ⟨x, hx, hpx⟩ := h
      rcases List.mem_cons.mp hx with rfl | hxr
      · exact absurd hpx ha
      · obtain ⟨pre, x', post, heq, hpre, hpx', hfind⟩ := ih ⟨x, hxr, hpx⟩
        refine ⟨a :: pre, x', post, by rw [heq]; rfl, ?_, hpx', ?_⟩
        · intro y hy
          rcases List.mem_cons.mp hy with rfl | hyr
          · exact ha'
          · exact hpre y hyr
        · rw [List.find?_cons_of_neg _ (by rw [ha']; simp), hfind]

/-- Counterexample for C1 as stated: a required multi-select question whose
recorded answer is the empty list is treated as answered (an empty array is
truthy in the `!answers[question.id]` check), so the submission is not
blocked: it succeeds and writes one response row and one answer row. -/
theorem requiredEmptyList_not_blocked :
    handleSubmit [qChoice QuestionType.multiple_choice ["A", "B"]]
        [("q1", AnswerValue.list [])] ⟨[], []⟩ "s1" "u1" "r1" =
      (⟨[⟨"r1", "s1", "u1"⟩], [⟨"r1", "q1", AnswerValue.list []⟩]⟩,
        SubmitOutcome.success) := by
  decide

/-- C1 (amended): whenever some question in order is required and its
recorded answer is missing or the empty string (the JavaScript-falsy
cases; a recorded empty list is treated as answered), the submission is
blocked at the first such question, the error message names that question's
text, and the data store is left unchanged — no response row and no answer
rows are written. -/
theorem requiredValidation_blocks (questions : List Question)
    (answers : List (String × AnswerValue)) (db : Db)
    (surveyId userId newId : String)
    (h : ∃ q ∈ questions, unmetRequired answers q = true) :
    ∃ pre q post, questions = pre ++ q :: post ∧
      (∀ q' ∈ pre, unmetRequired answers q' = false) ∧
      unmetRequired answers q = true ∧
      handleSubmit questions answers db surveyId userId newId =
        (db, SubmitOutcome.blocked ("请回答问题：" ++ q.question_text)) := by
  obtain ⟨pre, q, post, heq, hpre, hq, hfind⟩ :=
    find?_first (unmetRequired answers) questions h
  refine ⟨pre, q, post, heq, hpre, hq, ?_⟩
  unfold handleSubmit
  rw [hfind]

/-- Witness for C1 (amended): one required text question with recorded
answer `""` blocks the submission and leaves the store unchanged. -/
theorem requiredValidation_blocks_witness :
    ∃ pre q post,
      ([qChoice QuestionType.text []] : List Question) = pre ++ q :: post ∧
      (∀ q' ∈ pre, unmetRequired [("q1", AnswerValue.str "")] q' = false) ∧
      unmetRequired [("q1", AnswerValue.str "")] q = true ∧
      handleSubmit [qChoice QuestionType.text []]
          [("q1", AnswerValue.str "")] ⟨[], []⟩ "s1" "u1" "r1" =
        (⟨[], []⟩,
          SubmitOutcome.blocked ("请回答问题：" ++ q.question_text)) :=
  requiredValidation_blocks [qChoice QuestionType.text []]
    [("q1", AnswerValue.str "")] ⟨[], []⟩ "s1" "u1" "r1"
    ⟨qChoice QuestionType.text [], by decide, by decide⟩

/-! ## Repeated submissions and the uniqueness invariant (C8) -/

/-- At most one `responses` row per `(survey_id, user_id)` pair. -/
def AtMostOnePerPair (db : Db) : Prop :=
  ∀ s u, (db.responses.filter
    (fun r => r.survey_id == s && r.user_id == u)).length ≤ 1

/-- One submission attempt: its survey questions, the recorded answers, and
the identifiers involved. -/
structure Attempt where
  questions : List Question
  answers : List (String × AnswerValue)
  surveyId : String
  userId : String
  newId : String
deriving Repr

/-- The data store after a sequence of submission attempts. -/
def runAttempts (db : Db) (attempts : List Attempt) : Db :=
  attempts.foldl
    (fun d att =>
      (handleSubmit att.questions att.answers d att.surveyId att.userId
        att.newId).1) db

theorem handleSubmit_db_blocked (questions : List Question)
    (answers : List (String × AnswerValue)) (db : Db)
    (surveyId userId newId : String) (q : Question)
    (hfind : questions.find? (unmetRequired answers) = some q) :
    handleSubmit questions answers db surveyId userId newId =
      (db, SubmitOutcome.blocked ("请回答问题：" ++ q.question_text)) := by
  unfold handleSubmit
  rw [hfind]

theorem handleSubmit_of_has (questions : List Question)
    (answers : List (String × AnswerValue)) (db : Db)
    (surveyId userId newId : String)
    (hfind : questions.find? (unmetRequired answers) = none)
    (hhas : hasResponse db surveyId userId = true) :
    handleSubmit questions answers db surveyId userId newId =
      (db, SubmitOutcome.dbError
        "duplicate key value violates unique constraint") := by
  unfold handleSubmit insertResponse
  rw [hfind, hhas]
  simp

theorem handleSubmit_of_not_has (questions : List Question)
    (answers : List (String × AnswerValue)) (db : Db)
    (surveyId userId newId : String)
    (hfind : questions.find? (unmetRequired answers) = none)
    (hhas : hasResponse db surveyId userId = false) :
    handleSubmit questions answers db surveyId userId newId =
      ({ responses := db.responses ++ [⟨newId, surveyId, userId⟩],
         answerRows := db.answerRows ++
           answers.map (fun kv => ⟨newId, kv.1, kv.2⟩) },
        SubmitOutcome.success) := by
  unfold handleSubmit insertResponse
  rw [hfind, hhas]
  simp

theorem handleSubmit_preserves_atMostOne (db : Db)
    (questions : List Question) (answers : List (String × AnswerValue))
    (surveyId userId newId : String) (h : AtMostOnePerPair db) :
    AtMostOnePerPair
      (handleSubmit questions answers db surveyId userId newId).1 := by
  cases hfind : questions.find? (unmetRequired answers) with
  | some q =>
    rw [handleSubmit_db_blocked questions answers db surveyId userId newId q hfind]
    exact h
  | none =>
    cases hhas : hasResponse db surveyId userId with
    | true =>
      rw [handleSubmit_of_has questions answers db surveyId userId newId
        hfind hhas]
      exact h
    | false =>
      rw [handleSubmit_of_not_has questions answers db surveyId userId newId
        hfind hhas]
      intro s u
      simp only [List.filter_append, List.length_append]
      cases hb : (surveyId == s && userId == u) with
      | true =>
        have hsu : surveyId = s ∧ userId = u := by
          simp at hb
          exact hb
        obtain ⟨rfl, rfl⟩ := hsu
        have hempty : db.responses.filter
            (fun r => r.survey_id == surveyId && r.user_id == userId) = [] := by
          rw [List.filter_eq_nil_iff]
          intro r hr
          exact List.any_eq_false.mp
            (by rw [hasResponse] at hhas; exact hhas) r hr
        rw [hempty]
        have hle : (List.filter
            (fun r => r.survey_id == surveyId && r.user_id == userId)
            [(⟨newId, surveyId, userId⟩ : RespRow)]).length ≤ 1 :=
          le_trans (List.length_filter_le _ _) (by simp)
        simp only [List.length_nil, Nat.zero_add]
        exact hle
      | false =>
        have hrow : (List.filter
            (fun r => r.survey_id == s && r.user_id == u)
            [(⟨newId, surveyId, userId⟩ : RespRow)]).length = 0 := by
          simp only [List.filter_cons, List.filter_nil]
          rw [show ((⟨newId, surveyId, userId⟩ : RespRow).survey_id == s &&
              (⟨newId, surveyId, userId⟩ : RespRow).user_id == u) = false
            from hb]
          simp
        rw [hrow]
        simpa using h s u

/-- C8: starting from a store with at most one response per
`(survey, respondent)` pair, the uniqueness invariant holds under any
sequence of submission attempts; moreover, once a respondent has a
response on file, any further attempt leaves the store exactly unchanged
(no partial submission, no second response, no success outcome) and the
survey-loading probe reports the already-submitted state. -/
theorem responseUniqueness (db : Db) (attempts : List Attempt)
    (h : AtMostOnePerPair db) :
    AtMostOnePerPair (runAttempts db attempts) ∧
    (∀ (questions : List Question) (answers : List (String × AnswerValue))
        (surveyId userId newId : String),
      hasResponse db surveyId userId = true →
        (handleSubmit questions answers db surveyId userId newId).1 = db ∧
        (handleSubmit questions answers db surveyId userId newId).2 ≠
          SubmitOutcome.success ∧
        loadAlreadySubmitted db surveyId userId = true) := by
  constructor
  · unfold runAttempts
    induction attempts generalizing db with
    | nil => exact h
    | cons att rest ih =>
      rw [List.foldl_cons]
      exact ih _ (handleSubmit_preserves_atMostOne db att.questions
        att.answers att.surveyId att.userId att.newId h)
  · intro questions answers surveyId userId newId hhas
    refine ⟨?_, ?_, ?_⟩
    · cases hfind : questions.find? (unmetRequired answers) with
      | some q =>
        rw [handleSubmit_db_blocked questions answers db surveyId userId
          newId q hfind]
      | none =>
        rw [handleSubmit_of_has questions answers db surveyId userId newId
          hfind hhas]
    · cases hfind : questions.find? (unmetRequired answers) with
      | some q =>
        rw [handleSubmit_db_blocked questions answers db surveyId userId
          newId q hfind]
        simp
      | none =>
        rw [handleSubmit_of_has questions answers db surveyId userId newId
          hfind hhas]
        simp
    · unfold loadAlreadySubmitted
      rw [hasResponse] at hhas
      obtain ⟨r, hr, hpr⟩ := List.any_eq_true.mp hhas
      exact List.find?_isSome.mpr ⟨r, hr, hpr⟩

theorem atMostOne_singleton (r : RespRow) (ansRows : List AnsRow) :
    AtMostOnePerPair ⟨[r], ansRows⟩ := by
  intro s u
  simp only [List.filter]
  cases hp : (r.survey_id == s && r.user_id == u) <;> simp

/-- Witness for C8: a store holding one response for `("s1","u1")` rejects
a fresh attempt for the same pair without any change and reports the
already-submitted state. -/
theorem responseUniqueness_witness :
    (handleSubmit [] [] ⟨[⟨"r1", "s1", "u1"⟩], []⟩ "s1" "u1" "r2").1 =
      (⟨[⟨"r1", "s1", "u1"⟩], []⟩ : Db) ∧
    loadAlreadySubmitted ⟨[⟨"r1", "s1", "u1"⟩], []⟩ "s1" "u1" = true :=
  ⟨((responseUniqueness ⟨[⟨"r1", "s1", "u1"⟩], []⟩ []
      (atMostOne_singleton ⟨"r1", "s1", "u1"⟩ [])).2
      [] [] "s1" "u1" "r2" (by decide)).1,
   ((responseUniqueness ⟨[⟨"r1", "s1", "u1"⟩], []⟩ []
      (atMostOne_singleton ⟨"r1", "s1", "u1"⟩ [])).2
      [] [] "s1" "u1" "r2" (by decide)).2.2⟩

theorem validateQuestionList_some (questions : List QuestionDraft)
    (h : ∃ q ∈ questions, strTrim q.question_text = "" ∨
      (q.question_type ≠ QuestionType.text ∧ q.options.length < 2)) :
    ∀ i : Nat, ∃ msg, validateQuestionList i questions = some msg := by
  induction questions with
  | nil => simp at h
  | cons q rest ih =>
    intro i
    by_cases c1 : strTrim q.question_text = ""
    · exact ⟨"问题 " ++ toString (i + 1) ++ " 的内容不能为空", by
        unfold validateQuestionList
        rw [if_pos c1]⟩
    · by_cases c2 : q.question_type ≠ QuestionType.text ∧ q.options.length < 2
      · exact ⟨"问题 " ++ toString (i + 1) ++ " 至少需要两个选项", by
          unfold validateQuestionList
          rw [if_neg c1, if_pos c2]⟩
      · obtain ⟨q', hq', hbad⟩ := h
        rcases List.mem_cons.mp hq' with rfl | hq'r
        · rcases hbad with hb | hb
          · exact absurd hb c1
          · exact absurd hb c2
        · obtain ⟨msg, hmsg⟩ := ih ⟨q', hq'r, hbad⟩ (i + 1)
          exact ⟨msg, by
            unfold validateQuestionList
            rw [if_neg c1, if_neg c2]
            exact hmsg⟩

/-- C9: a save attempt with an empty (or whitespace-only) title, no
questions, a question with empty trimmed text, or a choice question with
fewer than two options performs no write at all and reports exactly one
error message. -/
theorem handleSave_validation (title description : String)
    (questions : List QuestionDraft)
    (h : strTrim title = "" ∨ questions = [] ∨
      (∃ q ∈ questions, strTrim q.question_text = "") ∨
      (∃ q ∈ questions,
        q.question_type ≠ QuestionType.text ∧ q.options.length < 2)) :
    ∃ msg, handleSave title description questions = ([], some msg) := by
  by_cases ht : strTrim title = ""
  · exact ⟨"请输入问卷标题", by unfold handleSave; rw [if_pos ht]⟩
  · by_cases hq : questions.length = 0
    · exact ⟨"请至少添加一个问题", by
        unfold handleSave
        rw [if_neg ht, if_pos hq]⟩
    · have hbad : ∃ q ∈ questions, strTrim q.question_text = "" ∨
          (q.question_type ≠ QuestionType.text ∧ q.options.length < 2) := by
        rcases h with h | h | h | h
        · exact absurd h ht
        · exact absurd (by rw [h]; rfl) hq
        · obtain ⟨q, hq', hb⟩ := h
          exact ⟨q, hq', Or.inl hb⟩
        · obtain ⟨q, hq', hb⟩ := h
          exact ⟨q, hq', Or.inr hb⟩
      obtain ⟨msg, hmsg⟩ := validateQuestionList_some questions hbad 0
      exact ⟨msg, by
        unfold handleSave
        rw [if_neg ht, if_neg hq, hmsg]⟩

/-- Witness for C9: a whitespace-only title — here a single full-width
space U+3000 — is rejected with a single message and no write. -/
theorem handleSave_validation_witness :
    ∃ msg, handleSave "\u3000" "desc" [] = ([], some msg) :=
  handleSave_validation "\u3000" "desc" [] (Or.inl (by decide))

end Questionnaire
